import Mathlib

/-!
Verification of the SUNTANS boundary-condition tooling (`sunboundary.py`):
the `Boundary` class (`loadBoundary`, `getTime`, `initArrays`, `write2NC`)
and the `modifyBCmarker` marker-reclassification function, shallowly
embedded over lists.  Coordinates are rationals, markers and cell indices
are integers (the adjacency sentinel for "no neighbor" is `-1`), and
instants of time are integers (seconds since the 1990-01-01 reference
epoch; parsing of `yyyymmdd.HHMM` strings is external to the core).
-/

namespace SunBC

/-- The grid abstraction provided by the external `sunpy.Grid` loader:
vertex coordinates `xp`/`yp`, per-edge vertex pairs `edges`, per-edge
cell-adjacency pairs `grad` (with `-1` as the "no neighbor" sentinel),
cell-center coordinates `xv`/`yv`, the per-edge marker array `mark`,
the vertical layer count `Nkmax` and mid-layer depths `z_r`. -/
structure Grid where
  xp : List ℚ
  yp : List ℚ
  edges : List (ℕ × ℕ)
  grad : List (ℤ × ℤ)
  xv : List ℚ
  yv : List ℚ
  mark : List ℤ
  Nkmax : ℕ
  z_r : List ℚ

/-- Embedding of `np.argwhere(l == v)`: the indices of `l` holding
value `v`, in ascending order. -/
def argwhereEq (l : List ℤ) (v : ℤ) : List ℕ :=
  (List.range l.length).filter (fun i => decide (l.getD i 0 = v))

/-- Indices of type-2 (`mark == 2`) edges, as in `loadBoundary`. -/
def ind2 (g : Grid) : List ℕ := argwhereEq g.mark 2

/-- Indices of type-3 (`mark == 3`) edges, as in `loadBoundary`. -/
def ind3 (g : Grid) : List ℕ := argwhereEq g.mark 3

/-- The adjacency pair `(grad[i,0], grad[i,1])` of edge `i`. -/
def gradPair (g : Grid) (i : ℕ) : ℤ × ℤ := g.grad.getD i (0, 0)

/-- The cell-resolution loop of `loadBoundary`:
`for c1,c2 in zip(cellp1,cellp2): if c1==-1: append(c2) elif c2==-1: append(c1)`. -/
def buildCellp : List (ℤ × ℤ) → List ℤ
  | [] => []
  | (c1, c2) :: rest =>
    if c1 = -1 then c2 :: buildCellp rest
    else if c2 = -1 then c1 :: buildCellp rest
    else buildCellp rest

/-- Numpy-style indexing of a coordinate array by a possibly negative
integer index (negative indices count from the end). -/
def npIndex (l : List ℚ) (c : ℤ) : ℚ :=
  if c < 0 then l.getD (l.length - (-c).toNat) 0 else l.getD c.toNat 0

/-- Per-edge midpoint x, `xe = np.mean(grd.xp[grd.edges], axis=1)`. -/
def edgeMidX (g : Grid) : List ℚ :=
  g.edges.map (fun e => (g.xp.getD e.1 0 + g.xp.getD e.2 0) / 2)

/-- Per-edge midpoint y, `ye = np.mean(grd.yp[grd.edges], axis=1)`. -/
def edgeMidY (g : Grid) : List ℚ :=
  g.edges.map (fun e => (g.yp.getD e.1 0 + g.yp.getD e.2 0) / 2)

/-- Embedding of `np.zeros((a, b))`. -/
def zeros2 (a b : ℕ) : List (List ℚ) :=
  List.replicate a (List.replicate b 0)

/-- Embedding of `np.zeros((a, b, c))`. -/
def zeros3 (a b c : ℕ) : List (List (List ℚ)) :=
  List.replicate a (zeros2 b c)

/-- The while-loop body of `Boundary.getTime`, with explicit fuel:
`while t0 < t2: append(t0); t0 += dt`. -/
def getTimeAux (t2 d : ℤ) : ℕ → ℤ → List ℤ
  | 0, _ => []
  | fuel + 1, t0 => if t0 < t2 then t0 :: getTimeAux t2 d fuel (t0 + d) else []

/-- Embedding of `Boundary.getTime`: the list of instants from `t1` (inclusive),
stepping by `d`, while strictly below `t2`.  For a positive step the
fuel `(t2 - t1).toNat` is never exhausted before the loop condition
fails. -/
def getTime (t1 t2 d : ℤ) : List ℤ :=
  getTimeAux t2 d (t2 - t1).toNat t1

/-- The state built by `Boundary.__init__` (`loadBoundary`, `getTime`,
`initArrays`). -/
structure BoundaryState where
  edgep : List ℕ
  N2 : ℕ
  cellp : List ℤ
  N3 : ℕ
  xv : List ℚ
  yv : List ℚ
  xe : List ℚ
  ye : List ℚ
  Nk : ℕ
  z : List ℚ
  time : List ℤ
  Nt : ℕ
  boundary_u : List (List (List ℚ))
  boundary_v : List (List (List ℚ))
  boundary_w : List (List (List ℚ))
  boundary_T : List (List (List ℚ))
  boundary_S : List (List (List ℚ))
  uc : List (List (List ℚ))
  vc : List (List (List ℚ))
  wc : List (List (List ℚ))
  T : List (List (List ℚ))
  S : List (List (List ℚ))
  h : List (List ℚ)

/-- Embedding of `Boundary.__init__(suntanspath, timeinfo)`: load the grid subsets
(`loadBoundary`), build the time axis (`getTime`) and allocate the
zero-filled field arrays (`initArrays`). -/
def Boundary.init (g : Grid) (t1 t2 dt : ℤ) : BoundaryState :=
  let edgep := ind2 g
  let N2 := edgep.length
  let cellp := buildCellp ((ind3 g).map (gradPair g))
  let N3 := cellp.length
  let xe0 := edgeMidX g
  let ye0 := edgeMidY g
  let time := getTime t1 t2 dt
  let Nt := time.length
  let Nk := g.Nkmax
  { edgep := edgep
    N2 := N2
    cellp := cellp
    N3 := N3
    xv := cellp.map (npIndex g.xv)
    yv := cellp.map (npIndex g.yv)
    xe := edgep.map (fun i => xe0.getD i 0)
    ye := edgep.map (fun i => ye0.getD i 0)
    Nk := Nk
    z := g.z_r
    time := time
    Nt := Nt
    boundary_u := zeros3 Nt Nk N2
    boundary_v := zeros3 Nt Nk N2
    boundary_w := zeros3 Nt Nk N2
    boundary_T := zeros3 Nt Nk N2
    boundary_S := zeros3 Nt Nk N2
    uc := zeros3 Nt Nk N3
    vc := zeros3 Nt Nk N3
    wc := zeros3 Nt Nk N3
    T := zeros3 Nt Nk N3
    S := zeros3 Nt Nk N3
    h := zeros2 Nt N3 }

/-- The per-edge resolution step of `loadBoundary` as a partial map:
`some` the appended cell index, `none` when the edge is skipped. -/
lemma buildCellp_eq (ps : List (ℤ × ℤ)) :
    buildCellp ps =
      (ps.filter (fun p => decide (p.1 = -1 ∨ p.2 = -1))).map
        (fun p => if p.1 = -1 then p.2 else p.1) := by
  induction ps with
  | nil => rfl
  | cons p rest ih =>
    rcases p with ⟨c1, c2⟩
    by_cases h1 : c1 = -1
    · simp [buildCellp, h1, List.filter, ih]
    · by_cases h2 : c2 = -1
      · simp [buildCellp, h1, h2, List.filter, ih]
      · simp [buildCellp, h1, h2, List.filter, ih]

/-- C4: for every grid, the type-2 edge list `edgep` built by
`loadBoundary` contains exactly the edge indices whose marker equals 2,
is sorted ascending, and `N2` is its cardinality. -/
theorem type2_subset_exact (g : Grid) (t1 t2 dt : ℤ) :
    (∀ i : ℕ, i ∈ (Boundary.init g t1 t2 dt).edgep ↔
      i < g.mark.length ∧ g.mark.getD i 0 = 2) ∧
    List.Sorted (· < ·) (Boundary.init g t1 t2 dt).edgep ∧
    (Boundary.init g t1 t2 dt).N2 = (Boundary.init g t1 t2 dt).edgep.length := by
  refine ⟨fun i => ?_, ?_, rfl⟩
  · simp [Boundary.init, ind2, argwhereEq, List.mem_filter, List.mem_range, and_comm]
  · exact (List.sorted_lt_range g.mark.length).filter _

/-- A minimal grid exhibiting a marker-3 edge whose adjacency pair is
`(-1, -1)` (both entries the sentinel). -/
def gBothSentinel : Grid :=
  { xp := [], yp := [], edges := [(0, 1)], grad := [(-1, -1)],
    xv := [], yv := [], mark := [3], Nkmax := 1, z_r := [0] }

/-- C1 counterexample: on a grid whose single marker-3 edge has both
adjacency entries equal to the sentinel, `loadBoundary` does NOT append
nothing — it appends the sentinel value `-1` itself (the `if c1==-1`
branch fires), so `cellp = [-1]` and `N3` equals the number of marker-3
edges instead of shrinking. -/
theorem both_sentinel_edge_appends_sentinel :
    (Boundary.init gBothSentinel 0 0 1).cellp = [-1] ∧
    (Boundary.init gBothSentinel 0 0 1).cellp ≠ [] ∧
    (Boundary.init gBothSentinel 0 0 1).N3 = (ind3 gBothSentinel).length := by
  refine ⟨rfl, by decide, rfl⟩

/-- C1 (amended): `loadBoundary` appends nothing exactly for the
marker-3 edges with two valid neighbors (neither adjacency entry is the
sentinel), so only those shrink `N3`; a both-sentinel edge is kept and
contributes the second entry — the sentinel `-1` — as its "cell index".
The list built is the first-sentinel-preferring projection of the
adjacency pairs having at least one sentinel entry. -/
theorem type3_append_characterization (g : Grid) (t1 t2 dt : ℤ) :
    (Boundary.init g t1 t2 dt).cellp =
      (((ind3 g).map (gradPair g)).filter
          (fun p => decide (p.1 = -1 ∨ p.2 = -1))).map
        (fun p => if p.1 = -1 then p.2 else p.1) ∧
    (Boundary.init g t1 t2 dt).N3 =
      (((ind3 g).map (gradPair g)).filter
          (fun p => decide (p.1 = -1 ∨ p.2 = -1))).length := by
  constructor
  · simpa [Boundary.init] using buildCellp_eq ((ind3 g).map (gradPair g))
  · show (buildCellp ((ind3 g).map (gradPair g))).length = _
    rw [buildCellp_eq, List.length_map]

/-- C2: on a grid satisfying the §3 invariant — every marker-3 edge has
exactly one sentinel entry in its adjacency pair — `loadBoundary`
resolves each marker-3 edge, in encounter order, to the entry of its
adjacency pair that is not the sentinel, and `N3` equals the number of
marker-3 edges. -/
theorem type3_resolution_under_invariant (g : Grid) (t1 t2 dt : ℤ)
    (hinv : ∀ i ∈ ind3 g,
      ((gradPair g i).1 = -1 ∧ (gradPair g i).2 ≠ -1) ∨
      ((gradPair g i).1 ≠ -1 ∧ (gradPair g i).2 = -1)) :
    (Boundary.init g t1 t2 dt).cellp =
      (ind3 g).map (fun i =>
        if (gradPair g i).1 = -1 then (gradPair g i).2 else (gradPair g i).1) ∧
    (Boundary.init g t1 t2 dt).N3 = (ind3 g).length ∧
    (∀ i ∈ ind3 g,
      (if (gradPair g i).1 = -1 then (gradPair g i).2 else (gradPair g i).1) ≠ -1) := by
  have hfilter :
      ((ind3 g).map (gradPair g)).filter (fun p => decide (p.1 = -1 ∨ p.2 = -1)) =
        (ind3 g).map (gradPair g) := by
    apply List.filter_eq_self.2
    intro p hp
    rcases List.mem_map.1 hp with ⟨i, hi, rfl⟩
    rcases hinv i hi with ⟨h1, _⟩ | ⟨_, h2⟩
    · exact decide_eq_true (Or.inl h1)
    · exact decide_eq_true (Or.inr h2)
  have hcellp : (Boundary.init g t1 t2 dt).cellp =
      (ind3 g).map (fun i =>
        if (gradPair g i).1 = -1 then (gradPair g i).2 else (gradPair g i).1) := by
    show buildCellp ((ind3 g).map (gradPair g)) = _
    rw [buildCellp_eq, hfilter, List.map_map]
    rfl
  refine ⟨hcellp, ?_, ?_⟩
  · show (buildCellp ((ind3 g).map (gradPair g))).length = _
    rw [buildCellp_eq, hfilter, List.length_map, List.length_map]
  · intro i hi
    rcases hinv i hi with ⟨h1, h2⟩ | ⟨h1, h2⟩
    · simp [h1, h2]
    · simp [h1, h2]

/-- A small grid satisfying the §3 invariant: marker-3 edges 0 and 2,
with adjacency pairs `(-1, 2)` and `(5, -1)`. -/
def gInvariantOK : Grid :=
  { xp := [], yp := [], edges := [(0, 1), (1, 2), (2, 0)],
    grad := [(-1, 2), (7, 8), (5, -1)],
    xv := [], yv := [], mark := [3, 0, 3], Nkmax := 1, z_r := [0] }

/-- C2 witness: on `gInvariantOK` the invariant holds and the resolved
cell indices are `[2, 5]` with `N3 = 2`. -/
theorem type3_resolution_witness :
    (Boundary.init gInvariantOK 0 0 1).cellp =
      (ind3 gInvariantOK).map (fun i =>
        if (gradPair gInvariantOK i).1 = -1 then (gradPair gInvariantOK i).2
        else (gradPair gInvariantOK i).1) ∧
    (Boundary.init gInvariantOK 0 0 1).N3 = (ind3 gInvariantOK).length :=
  ⟨(type3_resolution_under_invariant gInvariantOK 0 0 1 (by decide)).1,
   (type3_resolution_under_invariant gInvariantOK 0 0 1 (by decide)).2.1⟩

/-- Ceiling-division step: for `1 ≤ k` and `1 ≤ D`,
`⌈k/D⌉ = ⌈(k-D)/D⌉ + 1` (in truncated `ℕ` arithmetic). -/
lemma ceil_div_step (k D : ℕ) (hk : 1 ≤ k) (hD : 1 ≤ D) :
    (k + (D - 1)) / D = (k - D + (D - 1)) / D + 1 := by
  rcases le_or_lt D k with hDk | hDk
  · have h1 : k + (D - 1) = (k - D + (D - 1)) + D := by omega
    rw [h1, Nat.add_div_right _ hD]
  · have h1 : k - D = 0 := by omega
    have h2 : k + (D - 1) = (k - 1) + D := by omega
    have h3 : (k - 1) / D = 0 := Nat.div_eq_of_lt (by omega)
    have h4 : (D - 1) / D = 0 := Nat.div_eq_of_lt (by omega)
    rw [h1, h2, Nat.add_div_right _ hD, h3, Nat.zero_add (D - 1), h4]

/-- With fuel at least `(t2 - t0).toNat` and a positive step, the
`getTime` while-loop produces the arithmetic sequence
`t0, t0+d, ...` of length the ceiling of `(t2-t0)/d`. -/
lemma getTimeAux_eq (d : ℤ) (hd : 0 < d) (t2 : ℤ) :
    ∀ (fuel : ℕ) (t0 : ℤ), (t2 - t0).toNat ≤ fuel →
      getTimeAux t2 d fuel t0 =
        (List.range (((t2 - t0).toNat + (d.toNat - 1)) / d.toNat)).map
          (fun i : ℕ => t0 + (i : ℤ) * d) := by
  have hD : 1 ≤ d.toNat := by omega
  intro fuel
  induction fuel with
  | zero =>
    intro t0 hfuel
    have hk : (t2 - t0).toNat = 0 := by omega
    rw [hk, Nat.zero_add, Nat.div_eq_of_lt (by omega), List.range_zero, List.map_nil]
    rfl
  | succ n ih =>
    intro t0 hfuel
    by_cases h : t0 < t2
    · have hk : 1 ≤ (t2 - t0).toNat := by omega
      have hnext : (t2 - (t0 + d)).toNat = (t2 - t0).toNat - d.toNat := by omega
      have hfuel' : (t2 - (t0 + d)).toNat ≤ n := by omega
      have hstep := ceil_div_step (t2 - t0).toNat d.toNat hk hD
      calc getTimeAux t2 d (n + 1) t0
          = t0 :: getTimeAux t2 d n (t0 + d) := by rw [getTimeAux, if_pos h]
        _ = t0 :: (List.range (((t2 - (t0 + d)).toNat + (d.toNat - 1)) / d.toNat)).map
              (fun i : ℕ => (t0 + d) + (i : ℤ) * d) := by rw [ih (t0 + d) hfuel']
        _ = (List.range (((t2 - t0).toNat + (d.toNat - 1)) / d.toNat)).map
              (fun i : ℕ => t0 + (i : ℤ) * d) := by
            rw [hnext, hstep, List.range_succ_eq_map, List.map_cons, List.map_map]
            congr 1
            · simp
            · exact (List.map_congr_left (fun i _ => by
                simp only [Function.comp_apply]
                push_cast
                ring)).symm
    · have hk : (t2 - t0).toNat = 0 := by omega
      rw [hk, Nat.zero_add, Nat.div_eq_of_lt (by omega), List.range_zero, List.map_nil,
        getTimeAux, if_neg h]

/-- C5: for a positive step `d`, `getTime` is the arithmetic sequence
starting at `t1` inclusive with uniform spacing `d`; its length is the
ceiling of `(t2-t1)/d` (the exact quotient when the remainder is zero);
an instant `t1 + i*d` is included exactly while it is strictly below
`t2`; the axis is strictly increasing; and `t2 ≤ t1` yields the empty
axis rather than an error. -/
theorem getTime_spec (t1 t2 d : ℤ) (hd : 0 < d) :
    getTime t1 t2 d =
      (List.range (((t2 - t1).toNat + (d.toNat - 1)) / d.toNat)).map
        (fun i : ℕ => t1 + (i : ℤ) * d) ∧
    (getTime t1 t2 d).length = ((t2 - t1).toNat + (d.toNat - 1)) / d.toNat ∧
    (∀ i : ℕ, i < (getTime t1 t2 d).length →
      (getTime t1 t2 d).getD i 0 = t1 + (i : ℤ) * d) ∧
    (∀ i : ℕ, i < (getTime t1 t2 d).length ↔ t1 + (i : ℤ) * d < t2) ∧
    List.Sorted (· < ·) (getTime t1 t2 d) ∧
    (t2 ≤ t1 → getTime t1 t2 d = []) := by
  have hD : 1 ≤ d.toNat := by omega
  have heq := getTimeAux_eq d hd t2 (t2 - t1).toNat t1 le_rfl
  have hlen : (getTime t1 t2 d).length =
      ((t2 - t1).toNat + (d.toNat - 1)) / d.toNat := by
    rw [getTime, heq, List.length_map, List.length_range]
  refine ⟨heq, hlen, ?_, ?_, ?_, ?_⟩
  · intro i hi
    rw [hlen] at hi
    rw [getTime, heq, List.getD_eq_getElem _ _ (by simpa using hi)]
    simp
  · intro i
    rw [hlen, Nat.lt_iff_add_one_le,
      Nat.le_div_iff_mul_le (show 0 < d.toNat by omega), add_mul, one_mul]
    have hcast : ((i * d.toNat : ℕ) : ℤ) = (i : ℤ) * d := by
      push_cast [Int.toNat_of_nonneg hd.le]
      ring
    generalize hX : i * d.toNat = X at hcast
    generalize hm : (i : ℤ) * d = m at hcast
    omega
  · rw [getTime, heq]
    refine List.Pairwise.map _ (fun a b hab => ?_) (List.sorted_lt_range _)
    have h1 : (a : ℤ) < (b : ℤ) := by exact_mod_cast hab
    have h2 := mul_lt_mul_of_pos_right h1 hd
    linarith
  · intro hle
    have h0 : (t2 - t1).toNat = 0 := by omega
    rw [getTime, h0]
    rfl

/-- C5 witness: step 3 over the window `[0, 10)` gives the
ceiling-length axis `[0, 3, 6, 9]`. -/
theorem getTime_spec_witness :
    getTime 0 10 3 =
      (List.range ((((10 : ℤ) - 0).toNat + ((3 : ℤ).toNat - 1)) / (3 : ℤ).toNat)).map
        (fun i : ℕ => 0 + (i : ℤ) * 3) :=
  (getTime_spec 0 10 3 (by decide)).1

/-- A rank-3 array has shape `(a, b, c)` and every entry zero. -/
def Zero3Shape (a b c : ℕ) (x : List (List (List ℚ))) : Prop :=
  x.length = a ∧ ∀ p ∈ x, p.length = b ∧ ∀ r ∈ p, r.length = c ∧ ∀ q ∈ r, q = 0

/-- A rank-2 array has shape `(a, b)` and every entry zero. -/
def Zero2Shape (a b : ℕ) (x : List (List ℚ)) : Prop :=
  x.length = a ∧ ∀ r ∈ x, r.length = b ∧ ∀ q ∈ r, q = 0

lemma zeros2_spec (a b : ℕ) : Zero2Shape a b (zeros2 a b) := by
  refine ⟨List.length_replicate _ _, fun r hr => ?_⟩
  rw [List.eq_of_mem_replicate hr]
  exact ⟨List.length_replicate _ _, fun q hq => List.eq_of_mem_replicate hq⟩

lemma zeros3_spec (a b c : ℕ) : Zero3Shape a b c (zeros3 a b c) := by
  refine ⟨List.length_replicate _ _, fun p hp => ?_⟩
  rw [List.eq_of_mem_replicate hp]
  exact zeros2_spec b c

/-- C6: immediately after construction, the five type-2 field arrays
have shape `(Nt, Nk, N2)`, the five type-3 field arrays have shape
`(Nt, Nk, N3)`, the elevation array has shape `(Nt, N3)`, and every
entry of every field array is zero. -/
theorem initArrays_shape_zero (g : Grid) (t1 t2 dt : ℤ) :
    Zero3Shape (Boundary.init g t1 t2 dt).Nt (Boundary.init g t1 t2 dt).Nk
      (Boundary.init g t1 t2 dt).N2 (Boundary.init g t1 t2 dt).boundary_u ∧
    Zero3Shape (Boundary.init g t1 t2 dt).Nt (Boundary.init g t1 t2 dt).Nk
      (Boundary.init g t1 t2 dt).N2 (Boundary.init g t1 t2 dt).boundary_v ∧
    Zero3Shape (Boundary.init g t1 t2 dt).Nt (Boundary.init g t1 t2 dt).Nk
      (Boundary.init g t1 t2 dt).N2 (Boundary.init g t1 t2 dt).boundary_w ∧
    Zero3Shape (Boundary.init g t1 t2 dt).Nt (Boundary.init g t1 t2 dt).Nk
      (Boundary.init g t1 t2 dt).N2 (Boundary.init g t1 t2 dt).boundary_T ∧
    Zero3Shape (Boundary.init g t1 t2 dt).Nt (Boundary.init g t1 t2 dt).Nk
      (Boundary.init g t1 t2 dt).N2 (Boundary.init g t1 t2 dt).boundary_S ∧
    Zero3Shape (Boundary.init g t1 t2 dt).Nt (Boundary.init g t1 t2 dt).Nk
      (Boundary.init g t1 t2 dt).N3 (Boundary.init g t1 t2 dt).uc ∧
    Zero3Shape (Boundary.init g t1 t2 dt).Nt (Boundary.init g t1 t2 dt).Nk
      (Boundary.init g t1 t2 dt).N3 (Boundary.init g t1 t2 dt).vc ∧
    Zero3Shape (Boundary.init g t1 t2 dt).Nt (Boundary.init g t1 t2 dt).Nk
      (Boundary.init g t1 t2 dt).N3 (Boundary.init g t1 t2 dt).wc ∧
    Zero3Shape (Boundary.init g t1 t2 dt).Nt (Boundary.init g t1 t2 dt).Nk
      (Boundary.init g t1 t2 dt).N3 (Boundary.init g t1 t2 dt).T ∧
    Zero3Shape (Boundary.init g t1 t2 dt).Nt (Boundary.init g t1 t2 dt).Nk
      (Boundary.init g t1 t2 dt).N3 (Boundary.init g t1 t2 dt).S ∧
    Zero2Shape (Boundary.init g t1 t2 dt).Nt
      (Boundary.init g t1 t2 dt).N3 (Boundary.init g t1 t2 dt).h :=
  ⟨zeros3_spec _ _ _, zeros3_spec _ _ _, zeros3_spec _ _ _, zeros3_spec _ _ _,
   zeros3_spec _ _ _, zeros3_spec _ _ _, zeros3_spec _ _ _, zeros3_spec _ _ _,
   zeros3_spec _ _ _, zeros3_spec _ _ _, zeros2_spec _ _⟩

/-!
The marker-reclassification pass `modifyBCmarker`.  A polygon from the
external shapefile loader is represented by its point-containment test
(the capability `nxutils.points_inside_poly` provides), paired with the
integer marker value of its `marker` attribute.
-/

/-- One iteration of the polygon loop of `modifyBCmarker`: edges whose
current marker is positive (`ind0 = grd.mark > 0`) and whose midpoint
lies inside the polygon get the marker of the polygon; all other entries are
unchanged (the boolean-mask scatter `grd.mark[ind0] = mark` written
per edge). -/
def applyPoly (mids : List (ℚ × ℚ)) (poly : (ℚ × ℚ) → Bool) (bctype : ℤ)
    (mark : List ℤ) : List ℤ :=
  (List.range mark.length).map (fun i =>
    if 0 < mark.getD i 0 ∧ poly (mids.getD i (0, 0)) = true then bctype
    else mark.getD i 0)

/-- The polygon loop of `modifyBCmarker`:
`for xpoly, bctype in zip(XY, newmarker): ...`. -/
def modifyBCmarkerLoop (mids : List (ℚ × ℚ))
    (polys : List (((ℚ × ℚ) → Bool) × ℤ)) (mark : List ℤ) : List ℤ :=
  polys.foldl (fun m pb => applyPoly mids pb.1 pb.2 m) mark

/-- One polygon applied to a fixed candidate array `cand`: the overwrite
touches the edges positive in `cand`, not in the current accumulator. -/
def fixedStep (mids : List (ℚ × ℚ)) (cand : List ℤ) (m : List ℤ)
    (pb : ((ℚ × ℚ) → Bool) × ℤ) : List ℤ :=
  (List.range m.length).map (fun i =>
    if 0 < cand.getD i 0 ∧ pb.1 (mids.getD i (0, 0)) = true then pb.2
    else m.getD i 0)

/-- Modelled from the spec: the §4.2 reading in which the candidate set
is "the subset of edges whose current marker is nonzero", selected once
before any polygon is processed, with the containment test of every polygon
and overwrite applied to exactly that same set. -/
def modifyBCmarkerFixedCandidates (mids : List (ℚ × ℚ))
    (polys : List (((ℚ × ℚ) → Bool) × ℤ)) (mark : List ℤ) : List ℤ :=
  polys.foldl (fixedStep mids mark) mark

/-- The observable outcome of `modifyBCmarker`: the marker array, whether
`grd.saveEdges` ran, and whether the no-matching-polygons diagnostic was
printed. -/
structure ModifyResult where
  mark : List ℤ
  savedToDisk : Bool
  errorReported : Bool
deriving DecidableEq

/-- Embedding of `modifyBCmarker(suntanspath, bcfile)`: compute edge midpoints, read
the polygons (external), abort with a diagnostic when none carry the
`marker` attribute, otherwise run the reclassification loop and save the
updated markers to `edges.dat`. -/
def modifyBCmarker (g : Grid) (polys : List (((ℚ × ℚ) → Bool) × ℤ)) :
    ModifyResult :=
  let xe := edgeMidX g
  let ye := edgeMidY g
  if polys.length < 1 then
    { mark := g.mark, savedToDisk := false, errorReported := true }
  else
    { mark := modifyBCmarkerLoop (xe.zip ye) polys g.mark,
      savedToDisk := true, errorReported := false }

lemma applyPoly_length (mids : List (ℚ × ℚ)) (poly : (ℚ × ℚ) → Bool)
    (bctype : ℤ) (mark : List ℤ) :
    (applyPoly mids poly bctype mark).length = mark.length := by
  simp [applyPoly]

lemma applyPoly_getD (mids : List (ℚ × ℚ)) (poly : (ℚ × ℚ) → Bool)
    (bctype : ℤ) (mark : List ℤ) (i : ℕ) (hi : i < mark.length) :
    (applyPoly mids poly bctype mark).getD i 0 =
      if 0 < mark.getD i 0 ∧ poly (mids.getD i (0, 0)) = true then bctype
      else mark.getD i 0 := by
  rw [applyPoly, List.getD_eq_getElem _ _ (by simpa using hi)]
  simp

lemma applyPoly_getD_oob (mids : List (ℚ × ℚ)) (poly : (ℚ × ℚ) → Bool)
    (bctype : ℤ) (mark : List ℤ) (i : ℕ) (hi : ¬ i < mark.length) :
    (applyPoly mids poly bctype mark).getD i 0 = mark.getD i 0 := by
  rw [List.getD_eq_getElem?_getD, List.getElem?_eq_none, List.getD_eq_getElem?_getD,
    List.getElem?_eq_none]
  · exact Nat.le_of_not_lt hi
  · rw [applyPoly_length]
    exact Nat.le_of_not_lt hi

lemma modifyBCmarkerLoop_length (mids : List (ℚ × ℚ))
    (polys : List (((ℚ × ℚ) → Bool) × ℤ)) (mark : List ℤ) :
    (modifyBCmarkerLoop mids polys mark).length = mark.length := by
  induction polys generalizing mark with
  | nil => rfl
  | cons pb rest ih =>
    simp only [modifyBCmarkerLoop, List.foldl_cons] at ih ⊢
    rw [ih, applyPoly_length]

lemma applyPoly_pos_iff (mids : List (ℚ × ℚ)) (poly : (ℚ × ℚ) → Bool)
    (bctype : ℤ) (mark : List ℤ) (i : ℕ) (hb : 0 < bctype) :
    (0 < (applyPoly mids poly bctype mark).getD i 0 ↔ 0 < mark.getD i 0) := by
  by_cases hi : i < mark.length
  · rw [applyPoly_getD _ _ _ _ _ hi]
    by_cases hc : 0 < mark.getD i 0 ∧ poly (mids.getD i (0, 0)) = true
    · rw [if_pos hc]
      exact ⟨fun _ => hc.1, fun _ => hb⟩
    · rw [if_neg hc]
  · rw [applyPoly_getD_oob _ _ _ _ _ hi]

lemma modifyBCmarkerLoop_pos_iff (mids : List (ℚ × ℚ)) :
    ∀ (polys : List (((ℚ × ℚ) → Bool) × ℤ)) (mark : List ℤ) (i : ℕ),
      (∀ q ∈ polys, 0 < q.2) →
      (0 < (modifyBCmarkerLoop mids polys mark).getD i 0 ↔ 0 < mark.getD i 0) := by
  intro polys
  induction polys with
  | nil => exact fun mark i _ => Iff.rfl
  | cons pb rest ih =>
    intro mark i hpos
    simp only [modifyBCmarkerLoop, List.foldl_cons] at ih ⊢
    rw [ih (applyPoly mids pb.1 pb.2 mark) i
      (fun q hq => hpos q (List.mem_cons_of_mem _ hq))]
    exact applyPoly_pos_iff mids pb.1 pb.2 mark i (hpos pb (List.mem_cons_self _ _))

lemma modifyBCmarkerLoop_append (mids : List (ℚ × ℚ))
    (l1 l2 : List (((ℚ × ℚ) → Bool) × ℤ)) (mark : List ℤ) :
    modifyBCmarkerLoop mids (l1 ++ l2) mark =
      modifyBCmarkerLoop mids l2 (modifyBCmarkerLoop mids l1 mark) := by
  simp [modifyBCmarkerLoop, List.foldl_append]

/-- C8: an edge whose marker is 0 before the pass still has marker 0
afterwards (marker-0 edges are never candidates), and an edge whose
midpoint no polygon contains retains its original marker unchanged. -/
theorem reclassification_frame (mids : List (ℚ × ℚ))
    (polys : List (((ℚ × ℚ) → Bool) × ℤ)) (mark : List ℤ) (i j : ℕ)
    (hi : mark.getD i 0 = 0)
    (hj : ∀ q ∈ polys, q.1 (mids.getD j (0, 0)) = false) :
    (modifyBCmarkerLoop mids polys mark).getD i 0 = 0 ∧
    (modifyBCmarkerLoop mids polys mark).getD j 0 = mark.getD j 0 := by
  constructor
  · clear hj
    induction polys generalizing mark with
    | nil => exact hi
    | cons pb rest ih =>
      simp only [modifyBCmarkerLoop, List.foldl_cons] at ih ⊢
      apply ih
      by_cases hlt : i < mark.length
      · rw [applyPoly_getD _ _ _ _ _ hlt, hi, if_neg (by simp)]
      · rw [applyPoly_getD_oob _ _ _ _ _ hlt]
        exact hi
  · clear hi
    induction polys generalizing mark with
    | nil => rfl
    | cons pb rest ih =>
      simp only [modifyBCmarkerLoop, List.foldl_cons] at ih ⊢
      have hstep : (applyPoly mids pb.1 pb.2 mark).getD j 0 = mark.getD j 0 := by
        by_cases hlt : j < mark.length
        · have hfalse := hj pb (List.mem_cons_self _ _)
          rw [applyPoly_getD _ _ _ _ _ hlt, hfalse, if_neg (by simp)]
        · exact applyPoly_getD_oob _ _ _ _ _ hlt
      rw [ih _ (fun q hq => hj q (List.mem_cons_of_mem _ hq)), hstep]

/-- Midpoints, polygons and markers for the C8 witness: edge 0 has
marker 0 and is contained in the polygon, edge 1 has marker 4 and lies
outside it. -/
def mids8 : List (ℚ × ℚ) := [(0, 0), (5, 0)]

def polys8 : List (((ℚ × ℚ) → Bool) × ℤ) := [(fun p => decide (p.1 < 1), 9)]

def mark8 : List ℤ := [0, 4]

/-- C8 witness: the marker-0 contained edge stays 0 and the uncontained
edge keeps its marker. -/
theorem reclassification_frame_witness :
    (modifyBCmarkerLoop mids8 polys8 mark8).getD 0 0 = 0 ∧
    (modifyBCmarkerLoop mids8 polys8 mark8).getD 1 0 = mark8.getD 1 0 :=
  reclassification_frame mids8 polys8 mark8 0 1 (by decide) (by decide)

lemma fixedStep_length (mids : List (ℚ × ℚ)) (cand m : List ℤ)
    (pb : ((ℚ × ℚ) → Bool) × ℤ) :
    (fixedStep mids cand m pb).length = m.length := by
  simp [fixedStep]

lemma fixedStep_getD (mids : List (ℚ × ℚ)) (cand m : List ℤ)
    (pb : ((ℚ × ℚ) → Bool) × ℤ) (i : ℕ) (hi : i < m.length) :
    (fixedStep mids cand m pb).getD i 0 =
      if 0 < cand.getD i 0 ∧ pb.1 (mids.getD i (0, 0)) = true then pb.2
      else m.getD i 0 := by
  rw [fixedStep, List.getD_eq_getElem _ _ (by simpa using hi)]
  simp

/-- The code step applied to `m` agrees with the fixed-candidate step
whenever `cand` and `m` have the same positivity pattern. -/
lemma applyPoly_eq_fixedStep (mids : List (ℚ × ℚ)) (cand m : List ℤ)
    (pb : ((ℚ × ℚ) → Bool) × ℤ)
    (hiff : ∀ i : ℕ, 0 < cand.getD i 0 ↔ 0 < m.getD i 0) :
    applyPoly mids pb.1 pb.2 m = fixedStep mids cand m pb := by
  refine List.map_congr_left (fun i _ => ?_)
  exact if_congr (and_congr_left' (hiff i).symm) rfl rfl

lemma foldl_eq_fixed_of_pos (mids : List (ℚ × ℚ)) :
    ∀ (polys : List (((ℚ × ℚ) → Bool) × ℤ)) (m cand : List ℤ),
      m.length = cand.length →
      (∀ i : ℕ, 0 < cand.getD i 0 ↔ 0 < m.getD i 0) →
      (∀ q ∈ polys, 0 < q.2) →
      polys.foldl (fun m pb => applyPoly mids pb.1 pb.2 m) m =
        polys.foldl (fixedStep mids cand) m := by
  intro polys
  induction polys with
  | nil => exact fun m cand _ _ _ => rfl
  | cons pb rest ih =>
    intro m cand hlen hiff hpos
    simp only [List.foldl_cons]
    rw [applyPoly_eq_fixedStep mids cand m pb hiff]
    refine ih (fixedStep mids cand m pb) cand ?_ ?_
      (fun q hq => hpos q (List.mem_cons_of_mem _ hq))
    · rw [fixedStep_length, hlen]
    · intro i
      by_cases hi : i < m.length
      · rw [fixedStep_getD _ _ _ _ _ hi]
        by_cases hc : 0 < cand.getD i 0 ∧ pb.1 (mids.getD i (0, 0)) = true
        · rw [if_pos hc]
          exact ⟨fun _ => hpos pb (List.mem_cons_self _ _), fun _ => hc.1⟩
        · rw [if_neg hc]
          exact hiff i
      · have h1 : (fixedStep mids cand m pb).getD i 0 = 0 := by
          rw [List.getD_eq_getElem?_getD, List.getElem?_eq_none]
          · rfl
          · rw [fixedStep_length]
            exact Nat.le_of_not_lt hi
        have h2 : cand.getD i 0 = 0 := by
          rw [List.getD_eq_getElem?_getD, List.getElem?_eq_none]
          · rfl
          · rw [← hlen]
            exact Nat.le_of_not_lt hi
        rw [h1, h2]

/-- C7 counterexample: with polygons `[(contains-all, 0), (contains-all, 7)]`
over a single marker-2 edge, the code yields marker 0 (the edge drops out
of the recomputed candidate set after the first polygon zeroes it), while
the selected-once fixed-candidate semantics the claim states yields 7. -/
theorem candidate_set_not_fixed :
    modifyBCmarkerLoop [((0 : ℚ), (0 : ℚ))] [(fun _ => true, 0), (fun _ => true, 7)] [2] = [0] ∧
    modifyBCmarkerFixedCandidates [((0 : ℚ), (0 : ℚ))]
      [(fun _ => true, 0), (fun _ => true, 7)] [2] = [7] ∧
    modifyBCmarkerLoop [((0 : ℚ), (0 : ℚ))] [(fun _ => true, 0), (fun _ => true, 7)] [2] ≠
      modifyBCmarkerFixedCandidates [((0 : ℚ), (0 : ℚ))]
        [(fun _ => true, 0), (fun _ => true, 7)] [2] := by
  refine ⟨rfl, rfl, ?_⟩
  intro h
  exact absurd h (by decide)

/-- C7 (amended): the code recomputes the candidate set before each
polygon as the edges whose current marker is positive; when every
marker value of every polygon is positive this recomputed set never changes,
and the pass coincides with the selected-once fixed-candidate
semantics. -/
theorem candidate_set_fixed_of_positive_markers (mids : List (ℚ × ℚ))
    (polys : List (((ℚ × ℚ) → Bool) × ℤ)) (mark : List ℤ)
    (hpos : ∀ q ∈ polys, 0 < q.2) :
    modifyBCmarkerLoop mids polys mark =
      modifyBCmarkerFixedCandidates mids polys mark :=
  foldl_eq_fixed_of_pos mids polys mark mark rfl (fun _ => Iff.rfl) hpos

/-- C7 witness: a concrete run with positive polygon markers where the
code and the fixed-candidate semantics agree. -/
theorem candidate_set_fixed_witness :
    modifyBCmarkerLoop mids8 polys8 mark8 =
      modifyBCmarkerFixedCandidates mids8 polys8 mark8 :=
  candidate_set_fixed_of_positive_markers mids8 polys8 mark8 (by decide)

/-- C3 counterexample: an edge whose marker is 0, although its midpoint
is contained in both polygons (markers 5 then 7), ends the pass with
marker 0 — not with the marker of the last containing polygon. -/
theorem last_polygon_not_always_wins :
    modifyBCmarkerLoop [((0 : ℚ), (0 : ℚ))] [(fun _ => true, 5), (fun _ => true, 7)] [0] = [0] ∧
    (modifyBCmarkerLoop [((0 : ℚ), (0 : ℚ))]
      [(fun _ => true, 5), (fun _ => true, 7)] [0]).getD 0 0 ≠ 7 := by
  refine ⟨rfl, ?_⟩
  intro h
  exact absurd h (by decide)

/-- C3 (amended): for an edge whose marker is positive at the start of
the pass, and a polygon sequence whose marker values are all positive,
the edge ends with the marker of the last polygon in the sequence whose
containment test holds at the midpoint of the edge. -/
theorem last_polygon_wins (mids : List (ℚ × ℚ))
    (polys : List (((ℚ × ℚ) → Bool) × ℤ)) (mark : List ℤ) (i : ℕ)
    (pb : ((ℚ × ℚ) → Bool) × ℤ)
    (hpos : ∀ q ∈ polys, 0 < q.2)
    (hm : 0 < mark.getD i 0)
    (hi : i < mark.length)
    (hlast : (polys.filter (fun q => q.1 (mids.getD i (0, 0)))).getLast? = some pb) :
    (modifyBCmarkerLoop mids polys mark).getD i 0 = pb.2 := by
  induction polys using List.reverseRecOn with
  | nil => simp at hlast
  | append_singleton l q ih =>
    have hposl : ∀ r ∈ l, 0 < r.2 :=
      fun r hr => hpos r (List.mem_append_left _ hr)
    have hilen : i < (modifyBCmarkerLoop mids l mark).length := by
      rw [modifyBCmarkerLoop_length]
      exact hi
    rw [modifyBCmarkerLoop_append]
    have hsingle : modifyBCmarkerLoop mids [q] (modifyBCmarkerLoop mids l mark) =
        applyPoly mids q.1 q.2 (modifyBCmarkerLoop mids l mark) := rfl
    rw [hsingle, applyPoly_getD _ _ _ _ _ hilen]
    by_cases hq : q.1 (mids.getD i (0, 0)) = true
    · have hfilter : (l ++ [q]).filter (fun r => r.1 (mids.getD i (0, 0))) =
          l.filter (fun r => r.1 (mids.getD i (0, 0))) ++ [q] := by
        rw [List.filter_append, List.filter_cons, List.filter_nil]
        simp only [hq, if_true]
      rw [hfilter, List.getLast?_concat] at hlast
      have hpb : q = pb := by injection hlast
      have hposi : 0 < (modifyBCmarkerLoop mids l mark).getD i 0 :=
        (modifyBCmarkerLoop_pos_iff mids l mark i hposl).2 hm
      rw [if_pos ⟨hposi, hq⟩, hpb]
    · have hfilter : (l ++ [q]).filter (fun r => r.1 (mids.getD i (0, 0))) =
          l.filter (fun r => r.1 (mids.getD i (0, 0))) := by
        have hq' : q.1 (mids.getD i (0, 0)) = false := by
          revert hq
          cases q.1 (mids.getD i (0, 0)) <;> simp
        rw [List.filter_append, List.filter_cons, List.filter_nil]
        simp only [hq', Bool.false_eq_true, if_false, List.append_nil]
      rw [hfilter] at hlast
      rw [if_neg (fun hc => hq hc.2)]
      exact ih hposl hlast

/-- The two overlapping polygons of the C3 example: `P1` (marker 5)
contains the midpoints of edges A and B, `P2` (marker 7) those of B
and C. -/
def polyP1 : (ℚ × ℚ) → Bool := fun p => decide (p.1 ≤ 1)

def polyP2 : (ℚ × ℚ) → Bool := fun p => decide (1 ≤ p.1)

/-- Midpoints of the three edges A, B, C of the C3 example. -/
def midsABC : List (ℚ × ℚ) := [(0, 0), (1, 0), (2, 0)]

/-- C3 witness: with initially marked edges A, B, C, applying
`[P1, P2]` leaves B with marker 7 (from P2) and the full result `[5, 7, 7]`,
while `[P2, P1]` leaves B with marker 5 (from P1) and the result `[5, 5, 7]`. -/
theorem last_polygon_wins_witness :
    (modifyBCmarkerLoop midsABC [(polyP1, 5), (polyP2, 7)] [1, 1, 1]).getD 1 0 = 7 ∧
    (modifyBCmarkerLoop midsABC [(polyP2, 7), (polyP1, 5)] [1, 1, 1]).getD 1 0 = 5 ∧
    modifyBCmarkerLoop midsABC [(polyP1, 5), (polyP2, 7)] [1, 1, 1] = [5, 7, 7] ∧
    modifyBCmarkerLoop midsABC [(polyP2, 7), (polyP1, 5)] [1, 1, 1] = [5, 5, 7] :=
  ⟨last_polygon_wins midsABC [(polyP1, 5), (polyP2, 7)] [1, 1, 1] 1 (polyP2, 7)
      (by decide) (by decide) (by decide) rfl,
   last_polygon_wins midsABC [(polyP2, 7), (polyP1, 5)] [1, 1, 1] 1 (polyP1, 5)
      (by decide) (by decide) (by decide) rfl,
   rfl, rfl⟩

/-- C9: when the polygon loader returns no polygons carrying the
`marker` attribute, `modifyBCmarker` reports the diagnostic and returns
before the reclassification loop and before `saveEdges`: the marker
array is exactly the original one of the grid and nothing is written to
disk. -/
theorem no_matching_polygons_aborts (g : Grid)
    (polys : List (((ℚ × ℚ) → Bool) × ℤ)) (hempty : polys = []) :
    (modifyBCmarker g polys).mark = g.mark ∧
    (modifyBCmarker g polys).savedToDisk = false ∧
    (modifyBCmarker g polys).errorReported = true := by
  subst hempty
  exact ⟨rfl, rfl, rfl⟩

/-- C9 witness: the empty polygon list on a concrete grid. -/
theorem no_matching_polygons_aborts_witness :
    (modifyBCmarker gInvariantOK []).mark = gInvariantOK.mark ∧
    (modifyBCmarker gInvariantOK []).savedToDisk = false ∧
    (modifyBCmarker gInvariantOK []).errorReported = true :=
  no_matching_polygons_aborts gInvariantOK [] rfl

/-!
The output adapter `Boundary.write2NC`.  A netCDF variable is a name
paired with the payload array assigned to it by `tmpvar[:] = ...`; the
dimension declarations, `long_name` and `units` attributes are metadata
not modelled here.
-/

/-- The netCDF variable names `write2NC` creates. -/
inductive VarName where
  | xv | yv | cellp | xe | ye | edgep | z | tm
  | boundary_u | boundary_v | boundary_w | boundary_T | boundary_S
  | uc | vc | wc | T | S | h
deriving DecidableEq

/-- A netCDF variable payload: rank-1/2/3 real arrays or a rank-1
integer (index) array. -/
inductive NCVar where
  | rq1 : List ℚ → NCVar
  | rq2 : List (List ℚ) → NCVar
  | rq3 : List (List (List ℚ)) → NCVar
  | iz1 : List ℤ → NCVar
deriving DecidableEq

/-- Embedding of `Boundary.ncTime`: the time axis as seconds since 1990-01-01
(instants are already modelled as such seconds). -/
def ncTime (b : BoundaryState) : List ℚ :=
  b.time.map (fun t => (t : ℚ))

/-- Embedding of `Boundary.write2NC`: the sequence of variable assignments the writer
performs, in program order, with the `N2 > 0` and `N3 > 0` guards of the
source.  Line 284 of the source assigns `self.T` — not `self.S` — to the
type-3 salinity variable `S`. -/
def write2NC (b : BoundaryState) : List (VarName × NCVar) :=
  (if 0 < b.N3 then
    [(VarName.xv, NCVar.rq1 b.xv), (VarName.yv, NCVar.rq1 b.yv),
     (VarName.cellp, NCVar.iz1 b.cellp)]
  else []) ++
  (if 0 < b.N2 then
    [(VarName.xe, NCVar.rq1 b.xe), (VarName.ye, NCVar.rq1 b.ye),
     (VarName.edgep, NCVar.iz1 (b.edgep.map Int.ofNat))]
  else []) ++
  [(VarName.z, NCVar.rq1 b.z), (VarName.tm, NCVar.rq1 (ncTime b))] ++
  (if 0 < b.N2 then
    [(VarName.boundary_u, NCVar.rq3 b.boundary_u),
     (VarName.boundary_v, NCVar.rq3 b.boundary_v),
     (VarName.boundary_w, NCVar.rq3 b.boundary_w),
     (VarName.boundary_T, NCVar.rq3 b.boundary_T),
     (VarName.boundary_S, NCVar.rq3 b.boundary_S)]
  else []) ++
  (if 0 < b.N3 then
    [(VarName.uc, NCVar.rq3 b.uc), (VarName.vc, NCVar.rq3 b.vc),
     (VarName.wc, NCVar.rq3 b.wc), (VarName.T, NCVar.rq3 b.T),
     (VarName.S, NCVar.rq3 b.T), (VarName.h, NCVar.rq2 b.h)]
  else [])

/-- C10: when `N3 > 0`, the payload written to the type-3 salinity
variable `S` is the temperature field `T` (the latent defect of the
reference writer), while the other type-3 data variables `uc`, `vc`,
`wc`, `T` and `h` are each written from their own correspondingly named
field. -/
theorem write2NC_salinity_defect (b : BoundaryState) (h3 : 0 < b.N3) :
    (write2NC b).lookup VarName.S = some (NCVar.rq3 b.T) ∧
    (write2NC b).lookup VarName.uc = some (NCVar.rq3 b.uc) ∧
    (write2NC b).lookup VarName.vc = some (NCVar.rq3 b.vc) ∧
    (write2NC b).lookup VarName.wc = some (NCVar.rq3 b.wc) ∧
    (write2NC b).lookup VarName.T = some (NCVar.rq3 b.T) ∧
    (write2NC b).lookup VarName.h = some (NCVar.rq2 b.h) := by
  by_cases h2 : 0 < b.N2
  · rw [write2NC, if_pos h3, if_pos h2, if_pos h2, if_pos h3]
    exact ⟨rfl, rfl, rfl, rfl, rfl, rfl⟩
  · rw [write2NC, if_pos h3, if_neg h2, if_neg h2, if_pos h3]
    exact ⟨rfl, rfl, rfl, rfl, rfl, rfl⟩

/-- A concrete populated boundary state with one type-3 point and no
type-2 points, used to witness the C10 theorem. -/
def bWitness : BoundaryState :=
  { edgep := [], N2 := 0, cellp := [4], N3 := 1,
    xv := [10], yv := [20], xe := [], ye := [],
    Nk := 1, z := [5], time := [0], Nt := 1,
    boundary_u := [], boundary_v := [], boundary_w := [],
    boundary_T := [], boundary_S := [],
    uc := [[[1]]], vc := [[[2]]], wc := [[[3]]],
    T := [[[21]]], S := [[[35]]], h := [[7]] }

/-- C10 witness: on `bWitness` the `S` variable carries the temperature
payload `[[[21]]]`, not the salinity field `[[[35]]]`. -/
theorem write2NC_salinity_defect_witness :
    (write2NC bWitness).lookup VarName.S = some (NCVar.rq3 bWitness.T) ∧
    (write2NC bWitness).lookup VarName.uc = some (NCVar.rq3 bWitness.uc) ∧
    (write2NC bWitness).lookup VarName.vc = some (NCVar.rq3 bWitness.vc) ∧
    (write2NC bWitness).lookup VarName.wc = some (NCVar.rq3 bWitness.wc) ∧
    (write2NC bWitness).lookup VarName.T = some (NCVar.rq3 bWitness.T) ∧
    (write2NC bWitness).lookup VarName.h = some (NCVar.rq2 bWitness.h) :=
  write2NC_salinity_defect bWitness (by decide)

end SunBC
